import Mathlib

/-!
Verification of the `image-merger` core (`src/merger.rs`) against its
natural-language specification.

Modelling conventions:

* Rust `u32` values are `Nat` and `i32` values are `Int`; every arithmetic
  operation of the source is performed through an explicit checked operation
  (`checkedAdd`, `checkedSub`, `checkedMul`, `checkedAddI`) that fails exactly
  when the Rust operation would overflow its machine type.  This is Rust's
  checked (debug/"overflow is a program error") semantics.
* A Rust `panic!` (including arithmetic-overflow panics and the explicit
  `panic!` in `get_next_paste_coordinates`) is modelled as `Except.error
  (message, partialState)`, where `partialState` records the in-place
  mutations performed before the panic (the source methods take `&mut self`).
  A normal return is `Except.ok`.
* The `as u32` cast of an `i32` never fails: it reinterprets the value
  two's-complement style, i.e. takes it mod 2^32 (`u32OfI`).
* An image / the canvas is a width, a height and a pixel-lookup function;
  pixel writes are functional updates (`setPix`).
* The types `crate::core::Image` and `crate::core::ImageCell` are part of the
  repository but their source is not available; their behaviour is modelled
  from the specification where so marked.
* `rayon`'s data-parallel `for_each` over the enumerated pixel list is
  modelled as a sequential left-to-right loop over the pixel indices; the
  destinations of one paste are pairwise disjoint, so any interleaving yields
  the same final buffer, and the sequential order is the reference order.
-/

namespace ImageMerger

/-- The number of values of a Rust `u32`, i.e. 2^32. -/
def U32M : Nat := 4294967296

/-- One more than `i32::MAX`, i.e. 2^31. -/
def I32M : Int := 2147483648

/-- Panic message of Rust's checked `u32`/`i32` addition overflow. -/
def addMsg : String := "attempt to add with overflow"

/-- Panic message of Rust's checked `u32` subtraction underflow. -/
def subMsg : String := "attempt to subtract with overflow"

/-- Panic message of Rust's checked `u32` multiplication overflow. -/
def mulMsg : String := "attempt to multiply with overflow"

/-- The explicit panic message in `Merger::get_next_paste_coordinates`. -/
def capacityMsg : String := "No more space on canvas, please resize the canvas."

/-- Modelled from the spec: panic message of an out-of-bounds pixel write
through the exclusive-view handout (the spec only says per-pixel canvas
bounds are checked; the exact message is immaterial, it is any message
distinct from the others). -/
def oobMsg : String := "Image index out of bounds"

/-- Checked `u32` addition: Rust `a + b` on `u32`, failing on overflow. -/
def checkedAdd (a b : Nat) : Option Nat :=
  if a + b < U32M then some (a + b) else none

/-- Checked `u32` subtraction: Rust `a - b` on `u32`, failing on underflow. -/
def checkedSub (a b : Nat) : Option Nat :=
  if b ≤ a then some (a - b) else none

/-- Checked `u32` multiplication: Rust `a * b` on `u32`, failing on overflow. -/
def checkedMul (a b : Nat) : Option Nat :=
  if a * b < U32M then some (a * b) else none

/-- Checked `i32` addition: Rust `a + b` on `i32`, failing on overflow. -/
def checkedAddI (a b : Int) : Option Int :=
  if -I32M ≤ a + b ∧ a + b < I32M then some (a + b) else none

/-- The Rust cast `v as u32` on an `i32` value `v`: two's-complement
reinterpretation, i.e. the value modulo 2^32.  Never fails. -/
def u32OfI (v : Int) : Nat := (v % (U32M : Int)).toNat

/-- A pixel buffer with `u32` dimensions and a pixel at every coordinate
pair; models both `image::ImageBuffer` values and the repository's
`crate::core::Image` wrapper around them (pixel type `P`). -/
structure Image (P : Type) where
  width : Nat
  height : Nat
  pix : Nat → Nat → P

/-- Modelled from the spec: `Canvas::new` / `image::ImageBuffer::new`
"allocates a buffer of the given pixel dimensions with all pixels at the
format's default value" (spec section 4.1). -/
def Image.blank (P : Type) [Inhabited P] (w h : Nat) : Image P :=
  ⟨w, h, fun _ _ => default⟩

/-- Functional update of one pixel of a buffer. -/
def setPix {P : Type} (c : Image P) (x y : Nat) (p : P) : Image P :=
  ⟨c.width, c.height, fun a b => if a = x ∧ b = y then p else c.pix a b⟩

/-- The x-coordinate on the canvas written by the worker handling pixel
index `i` of a paste with destination corner `px`: the source computes
`paste_x + (index as u32 % image_width)`, where `index` is the `usize`
position in the collected pixel vector, so the index is truncated to
`u32` before the remainder is taken. -/
def destX {P : Type} (img : Image P) (px i : Nat) : Nat :=
  px + (i % U32M) % img.width

/-- The y-coordinate on the canvas written by the worker handling pixel
index `i`: `paste_y + (index as u32 / image_width)`. -/
def destY {P : Type} (img : Image P) (py i : Nat) : Nat :=
  py + (i % U32M) / img.width

/-- The pixel value carried by the worker handling index `i`: element `i`
of the row-major pixel list of the image (the `usize` list index is NOT
truncated, only the coordinate arithmetic above is). -/
def srcPix {P : Type} (img : Image P) (i : Nat) : P :=
  img.pix (i % img.width) (i / img.width)

/-- One worker body of `Merger::paste`: for pixel index `i`, compute the
destination coordinates (checked `u32` additions) and write the source
pixel there through the canvas cell's handout.  Modelled from the spec:
the handout write is bounds-checked per pixel (spec sections 4.1 and 9). -/
def pasteStep {P : Type} (img : Image P) (px py i : Nat) (c : Image P) :
    Except (String × Image P) (Image P) :=
  match checkedAdd px ((i % U32M) % img.width),
        checkedAdd py ((i % U32M) / img.width) with
  | some cx, some cy =>
      if cx < c.width ∧ cy < c.height then
        .ok (setPix c cx cy (srcPix img i))
      else
        .error (oobMsg, c)
  | _, _ => .error (addMsg, c)

/-- The paste loop over pixel indices `[0, n)` in order, index `n-1` last;
an error carries the canvas as mutated by the writes that preceded it. -/
def pasteAux {P : Type} (img : Image P) (px py : Nat) :
    Nat → Image P → Except (String × Image P) (Image P)
  | 0, c => .ok c
  | n + 1, c =>
      match pasteAux img px py n c with
      | .ok c' => pasteStep img px py n c'
      | .error e => .error e

/-- `Merger::paste`: iterate over all `image.width * image.height` collected
pixels (the length of `image.pixels().collect()`), writing each into the
canvas at its translated coordinates. -/
def paste {P : Type} (c : Image P) (img : Image P) (px py : Nat) :
    Except (String × Image P) (Image P) :=
  pasteAux img px py (img.width * img.height) c

/-- The pure (panic-free) result of the first `n` paste writes. -/
def purePaste {P : Type} (img : Image P) (px py : Nat) :
    Nat → Image P → Image P
  | 0, c => c
  | n + 1, c =>
      setPix (purePaste img px py n c) (destX img px n) (destY img py n)
        (srcPix img n)

/-- The `Merger` struct of `src/merger.rs`. -/
structure Merger (P : Type) where
  canvas : Image P
  image_dimensions : Nat × Nat
  num_images : Nat
  images_per_row : Nat
  last_pasted_index : Int
  total_rows : Nat

/-- `Merger::new`: allocates the canvas at `image_dimensions.0 *
images_per_row` by `image_dimensions.1 * rows` (two checked `u32`
multiplications), and initialises the bookkeeping fields.  There is no
error return in the source; the only failure is an overflow panic in the
dimension products, modelled as `Except.error` with the panic message. -/
def Merger.new (P : Type) [Inhabited P] (image_dimensions : Nat × Nat)
    (images_per_row : Nat) (rows : Nat) : Except String (Merger P) :=
  match checkedMul image_dimensions.1 images_per_row with
  | none => .error mulMsg
  | some w =>
      match checkedMul image_dimensions.2 rows with
      | none => .error mulMsg
      | some h =>
          .ok { canvas := Image.blank P w h
                image_dimensions := image_dimensions
                num_images := 0
                images_per_row := images_per_row
                last_pasted_index := -1
                total_rows := rows }

/-- `Merger::get_num_images`. -/
def Merger.get_num_images {P : Type} (m : Merger P) : Nat :=
  m.num_images

/-- `Merger::get_canvas`. -/
def Merger.get_canvas {P : Type} (m : Merger P) : Image P :=
  m.canvas

/-- `Merger::get_next_paste_coordinates`: computes the remaining capacity
`(images_per_row * total_rows) - num_images` (checked `u32` multiplication
and subtraction), panics with `capacityMsg` when it is zero, and otherwise
derives the next cell's top-left pixel coordinates from
`(last_pasted_index + 1) as u32` (checked `i32` addition, then the cast).
The divisions by `images_per_row` need no zero check: they are reached only
when the capacity is nonzero, which forces `images_per_row ≥ 1`.  The
method takes `&mut self` but mutates nothing, so a panic leaves `m`
unchanged. -/
def Merger.get_next_paste_coordinates {P : Type} (m : Merger P) :
    Except (String × Merger P) (Nat × Nat) :=
  match checkedMul m.images_per_row m.total_rows with
  | none => .error (mulMsg, m)
  | some cap =>
      match checkedSub cap m.num_images with
      | none => .error (subMsg, m)
      | some available =>
          if available = 0 then
            .error (capacityMsg, m)
          else
            match checkedAddI m.last_pasted_index 1 with
            | none => .error (addMsg, m)
            | some s =>
                let current := u32OfI s
                let offset_x := current % m.images_per_row
                let offset_y := current / m.images_per_row
                match checkedMul offset_x m.image_dimensions.1 with
                | none => .error (mulMsg, m)
                | some x =>
                    match checkedMul offset_y m.image_dimensions.2 with
                    | none => .error (mulMsg, m)
                    | some y => .ok (x, y)

/-- `Merger::push`: obtain the next paste coordinates (possibly panicking),
paste the image there, then commit `last_pasted_index += 1` and
`num_images += 1` (checked `i32` and `u32` additions).  A panic's partial
state records exactly the in-place mutations performed before it. -/
def Merger.push {P : Type} (m : Merger P) (image : Image P) :
    Except (String × Merger P) (Merger P) :=
  match m.get_next_paste_coordinates with
  | .error e => .error e
  | .ok (x, y) =>
      match paste m.canvas image x y with
      | .error (msg, c') => .error (msg, { m with canvas := c' })
      | .ok c' =>
          match checkedAddI m.last_pasted_index 1 with
          | none => .error (addMsg, { m with canvas := c' })
          | some lp =>
              match checkedAdd m.num_images 1 with
              | none =>
                  .error (addMsg,
                    { m with canvas := c', last_pasted_index := lp })
              | some n' =>
                  .ok { m with canvas := c'
                               last_pasted_index := lp
                               num_images := n' }

/-- `true` exactly on a normal (non-panicking) return. -/
def isOkE {ε α : Type} : Except ε α → Bool
  | .ok _ => true
  | .error _ => false

/-- `true` exactly when the result models a Rust `panic!` (abnormal,
process-wide termination).  A failure surfaced "as a recoverable `Result`"
would be a normal return carrying the error value, hence `isOkE`. -/
def panics {ε α : Type} (r : Except ε α) : Bool :=
  !(isOkE r)

/-- The state invariant maintained by every reachable `Merger`:
`last_pasted_index` tracks `num_images`, the grid is never over-filled,
and the canvas has the dimensions computed (without overflow) at
construction. -/
def Inv {P : Type} (m : Merger P) : Prop :=
  m.last_pasted_index = (m.num_images : Int) - 1 ∧
  m.num_images ≤ m.images_per_row * m.total_rows ∧
  m.image_dimensions.1 * m.images_per_row < U32M ∧
  m.image_dimensions.2 * m.total_rows < U32M ∧
  m.canvas.width = m.image_dimensions.1 * m.images_per_row ∧
  m.canvas.height = m.image_dimensions.2 * m.total_rows

/-- The reachable `Merger` states: those returned by `Merger::new` and
closed under successful `push` calls (a panicking call yields no state
the program continues with). -/
inductive Reachable {P : Type} [Inhabited P] : Merger P → Prop where
  | base : ∀ (d : Nat × Nat) (cols rows : Nat) (m : Merger P),
      Merger.new P d cols rows = .ok m → Reachable m
  | step : ∀ (m : Merger P) (img : Image P) (m' : Merger P),
      Reachable m → m.push img = .ok m' → Reachable m'

/-! ## Concrete states used to instantiate and to refute claims -/

/-- A 1-by-1 all-ones image. -/
def oneImg : Image Nat := ⟨1, 1, fun _ _ => 1⟩

/-- A full `Merger`: one cell of size 1 by 1, already holding one image
(`num_images = 1 = images_per_row * total_rows`). -/
def fullM : Merger Nat :=
  { canvas := ⟨1, 1, fun _ _ => 1⟩
    image_dimensions := (1, 1)
    num_images := 1
    images_per_row := 1
    last_pasted_index := 0
    total_rows := 1 }

/-- The state `Merger::new((1,1), 3, 2)` returns: a 3-by-2 grid of
1-by-1 cells, nothing placed. -/
def freshM3x2 : Merger Nat :=
  { canvas := Image.blank Nat 3 2
    image_dimensions := (1, 1)
    num_images := 0
    images_per_row := 3
    last_pasted_index := -1
    total_rows := 2 }

/-- The state `Merger::new((1,1), 65536, 65536)` returns: a grid whose
cell count `65536 * 65536 = 2^32` overflows `u32` although its canvas
(65536 by 65536) is perfectly representable. -/
def bigGridM : Merger Nat :=
  { canvas := Image.blank Nat 65536 65536
    image_dimensions := (1, 1)
    num_images := 0
    images_per_row := 65536
    last_pasted_index := -1
    total_rows := 65536 }

/-- The state `Merger::new((65536, 65537), 1, 1)` returns: a single cell
of `65536 * 65537 = 2^32 + 65536` pixels, one more than a `u32` holds. -/
def tallCellM : Merger Nat :=
  { canvas := Image.blank Nat 65536 65537
    image_dimensions := (65536, 65537)
    num_images := 0
    images_per_row := 1
    last_pasted_index := -1
    total_rows := 1 }

/-- A 65536-by-65537 image whose pixel value is its row number. -/
def rowIdxImg : Image Nat := ⟨65536, 65537, fun _ y => y⟩

/-- The state `Merger::new((2,2), 1, 1)` returns: one 2-by-2 cell. -/
def squareCellM : Merger Nat :=
  { canvas := Image.blank Nat 2 2
    image_dimensions := (2, 2)
    num_images := 0
    images_per_row := 1
    last_pasted_index := -1
    total_rows := 1 }

/-- A 1-by-1 image (undersized for a 2-by-2 cell) with pixel value 7. -/
def smallImg : Image Nat := ⟨1, 1, fun _ _ => 7⟩

/-- A 2-by-2 image with distinct pixel values `x + 10 * y`. -/
def imgA : Image Nat := ⟨2, 2, fun x y => x + 10 * y⟩

/-- `squareCellM` after a successful push of `imgA`. -/
def squareCellMafter : Merger Nat :=
  { squareCellM with
    canvas := purePaste imgA 0 0 4 squareCellM.canvas
    last_pasted_index := 0
    num_images := 1 }

/-- The state `Merger::new((1,1), 2, 1)` returns: two 1-by-1 cells side
by side. -/
def wideM : Merger Nat :=
  { canvas := Image.blank Nat 2 1
    image_dimensions := (1, 1)
    num_images := 0
    images_per_row := 2
    last_pasted_index := -1
    total_rows := 1 }

/-- A 2-by-1 image (oversized for a 1-by-1 cell) with pixel value 5. -/
def wideImg : Image Nat := ⟨2, 1, fun _ _ => 5⟩

/-- `wideM` after a successful push of the conforming 1-by-1 image. -/
def wideMafter : Merger Nat :=
  { wideM with
    canvas := purePaste oneImg 0 0 1 wideM.canvas
    last_pasted_index := 0
    num_images := 1 }

/-! ## Basic lemmas about the embedding -/

@[simp]
theorem setPix_width {P : Type} (c : Image P) (x y : Nat) (p : P) :
    (setPix c x y p).width = c.width := rfl

@[simp]
theorem setPix_height {P : Type} (c : Image P) (x y : Nat) (p : P) :
    (setPix c x y p).height = c.height := rfl

theorem setPix_pix {P : Type} (c : Image P) (x y : Nat) (p : P) (a b : Nat) :
    (setPix c x y p).pix a b = if a = x ∧ b = y then p else c.pix a b := rfl

@[simp]
theorem purePaste_width {P : Type} (img : Image P) (px py n : Nat)
    (c : Image P) : (purePaste img px py n c).width = c.width := by
  induction n with
  | zero => rfl
  | succ n ih => simp [purePaste, ih]

@[simp]
theorem purePaste_height {P : Type} (img : Image P) (px py n : Nat)
    (c : Image P) : (purePaste img px py n c).height = c.height := by
  induction n with
  | zero => rfl
  | succ n ih => simp [purePaste, ih]

theorem u32OfI_natCast (n : Nat) (h : n < U32M) : u32OfI (n : Int) = n := by
  unfold u32OfI
  rw [Int.emod_eq_of_lt (by positivity) (by exact_mod_cast h)]
  simp

theorem checkedAdd_eq_some (a b : Nat) (h : a + b < U32M) :
    checkedAdd a b = some (a + b) := by
  simp [checkedAdd, h]

theorem checkedSub_eq_some (a b : Nat) (h : b ≤ a) :
    checkedSub a b = some (a - b) := by
  simp [checkedSub, h]

theorem checkedMul_eq_some (a b : Nat) (h : a * b < U32M) :
    checkedMul a b = some (a * b) := by
  simp [checkedMul, h]

theorem checkedAddI_eq_some (a b : Int) (h1 : -I32M ≤ a + b)
    (h2 : a + b < I32M) : checkedAddI a b = some (a + b) := by
  simp [checkedAddI, h1, h2]

theorem checkedAdd_ok_elim (a b v : Nat) (h : checkedAdd a b = some v) :
    v = a + b ∧ a + b < U32M := by
  unfold checkedAdd at h
  split at h
  · exact ⟨(Option.some.injEq _ _).mp h |>.symm, by assumption⟩
  · exact absurd h (by simp)

theorem checkedSub_ok_elim (a b v : Nat) (h : checkedSub a b = some v) :
    v = a - b ∧ b ≤ a := by
  unfold checkedSub at h
  split at h
  · exact ⟨(Option.some.injEq _ _).mp h |>.symm, by assumption⟩
  · exact absurd h (by simp)

theorem checkedMul_ok_elim (a b v : Nat) (h : checkedMul a b = some v) :
    v = a * b ∧ a * b < U32M := by
  unfold checkedMul at h
  split at h
  · exact ⟨(Option.some.injEq _ _).mp h |>.symm, by assumption⟩
  · exact absurd h (by simp)

theorem checkedAddI_ok_elim (a b v : Int) (h : checkedAddI a b = some v) :
    v = a + b ∧ -I32M ≤ a + b ∧ a + b < I32M := by
  unfold checkedAddI at h
  split at h
  · exact ⟨(Option.some.injEq _ _).mp h |>.symm, by assumption⟩
  · exact absurd h (by simp)

/-- A worker whose destination lies inside the canvas performs its write
and succeeds. -/
theorem pasteStep_ok {P : Type} (img : Image P) (px py i : Nat)
    (c : Image P) (hwle : c.width ≤ U32M) (hhle : c.height ≤ U32M)
    (hx : destX img px i < c.width) (hy : destY img py i < c.height) :
    pasteStep img px py i c =
      .ok (setPix c (destX img px i) (destY img py i) (srcPix img i)) := by
  have hx' : px + (i % U32M) % img.width < c.width := hx
  have hy' : py + (i % U32M) / img.width < c.height := hy
  simp only [pasteStep,
    checkedAdd_eq_some _ _ (lt_of_lt_of_le hx' hwle),
    checkedAdd_eq_some _ _ (lt_of_lt_of_le hy' hhle)]
  rw [if_pos ⟨hx', hy'⟩]
  rfl

/-- If every destination of the first `n` writes lies inside the canvas,
the paste loop succeeds and produces the pure write fold. -/
theorem pasteAux_ok {P : Type} (img : Image P) (px py : Nat) (n : Nat)
    (c : Image P) (hwle : c.width ≤ U32M) (hhle : c.height ≤ U32M)
    (h : ∀ i, i < n →
      destX img px i < c.width ∧ destY img py i < c.height) :
    pasteAux img px py n c = .ok (purePaste img px py n c) := by
  induction n with
  | zero => rfl
  | succ n ih =>
    have hrec := ih (fun i hi => h i (Nat.lt_succ_of_lt hi))
    have hx := (h n (Nat.lt_succ_self n)).1
    have hy := (h n (Nat.lt_succ_self n)).2
    rw [pasteAux, hrec]
    exact pasteStep_ok img px py n _ (by simpa using hwle)
      (by simpa using hhle) (by simpa using hx) (by simpa using hy)

/-- A successful paste loop produced exactly the pure write fold. -/
theorem pasteAux_ok_elim {P : Type} (img : Image P) (px py : Nat)
    (n : Nat) (c c' : Image P) (h : pasteAux img px py n c = .ok c') :
    c' = purePaste img px py n c := by
  induction n generalizing c' with
  | zero =>
    rw [pasteAux] at h
    injection h with h1
    exact h1.symm
  | succ n ih =>
    rw [pasteAux] at h
    cases hrec : pasteAux img px py n c with
    | error e => rw [hrec] at h; exact absurd h (by simp)
    | ok c'' =>
      rw [hrec] at h
      have hc'' := ih c'' hrec
      replace h : pasteStep img px py n c'' = .ok c' := h
      unfold pasteStep at h
      cases hax : checkedAdd px ((n % U32M) % img.width) with
      | none => rw [hax] at h; exact absurd h (by simp)
      | some cx =>
        cases hay : checkedAdd py ((n % U32M) / img.width) with
        | none => rw [hax, hay] at h; exact absurd h (by simp)
        | some cy =>
          rw [hax, hay] at h
          replace h : (if cx < c''.width ∧ cy < c''.height then
              Except.ok (setPix c'' cx cy (srcPix img n))
            else Except.error (oobMsg, c'')) = .ok c' := h
          split at h
          · injection h with h1
            rw [purePaste, ← h1, hc'']
            rw [(checkedAdd_ok_elim _ _ _ hax).1,
              (checkedAdd_ok_elim _ _ _ hay).1]
            rfl
          · exact absurd h (by simp)

/-- An error of the paste loop is an add-overflow panic or an
out-of-bounds pixel write; in particular it is never the capacity
message. -/
theorem pasteAux_error_msg {P : Type} (img : Image P) (px py n : Nat)
    (c c' : Image P) (msg : String)
    (h : pasteAux img px py n c = .error (msg, c')) :
    msg = addMsg ∨ msg = oobMsg := by
  induction n generalizing msg c' with
  | zero => rw [pasteAux] at h; exact absurd h (by simp)
  | succ n ih =>
    rw [pasteAux] at h
    cases hrec : pasteAux img px py n c with
    | error e =>
      rw [hrec] at h
      injection h with h1
      exact ih _ _ (h1 ▸ hrec)
    | ok c'' =>
      rw [hrec] at h
      replace h : pasteStep img px py n c'' = .error (msg, c') := h
      unfold pasteStep at h
      cases hax : checkedAdd px ((n % U32M) % img.width) with
      | none =>
        rw [hax] at h
        injection h with h1
        injection h1 with h2 h3
        exact Or.inl h2.symm
      | some cx =>
        cases hay : checkedAdd py ((n % U32M) / img.width) with
        | none =>
          rw [hax, hay] at h
          injection h with h1
          injection h1 with h2 h3
          exact Or.inl h2.symm
        | some cy =>
          rw [hax, hay] at h
          replace h : (if cx < c''.width ∧ cy < c''.height then
              Except.ok (setPix c'' cx cy (srcPix img n))
            else Except.error (oobMsg, c'')) = .error (msg, c') := h
          split at h
          · exact absurd h (by simp)
          · injection h with h1
            injection h1 with h2 h3
            exact Or.inr h2.symm

/-- A coordinate no write targets keeps its original pixel. -/
theorem purePaste_pix_miss {P : Type} (img : Image P) (px py n : Nat)
    (c : Image P) (a b : Nat)
    (h : ∀ i, i < n → ¬(destX img px i = a ∧ destY img py i = b)) :
    (purePaste img px py n c).pix a b = c.pix a b := by
  induction n with
  | zero => rfl
  | succ n ih =>
    rw [purePaste, setPix_pix,
      if_neg (fun hc => h n (Nat.lt_succ_self n) ⟨hc.1.symm, hc.2.symm⟩)]
    exact ih (fun i hi => h i (Nat.lt_succ_of_lt hi))

/-- A coordinate whose last targeting write is index `m` holds that
write's pixel. -/
theorem purePaste_pix_hit {P : Type} (img : Image P) (px py n : Nat)
    (c : Image P) (a b m : Nat) (hm : m < n)
    (hvx : destX img px m = a) (hvy : destY img py m = b)
    (hlast : ∀ k, m < k → k < n →
      ¬(destX img px k = a ∧ destY img py k = b)) :
    (purePaste img px py n c).pix a b = srcPix img m := by
  induction n with
  | zero => exact absurd hm (Nat.not_lt_zero m)
  | succ n ih =>
    rw [purePaste, setPix_pix]
    by_cases hmn : m = n
    · subst hmn
      rw [if_pos ⟨hvx.symm, hvy.symm⟩]
    · have hm' : m < n := by omega
      rw [if_neg (fun hc =>
        hlast n (by omega) (Nat.lt_succ_self n) ⟨hc.1.symm, hc.2.symm⟩)]
      exact ih hm' (fun k hk1 hk2 => hlast k hk1 (Nat.lt_succ_of_lt hk2))

/-! ## Lemmas about `get_next_paste_coordinates` and `push` -/

/-- Everything a successful `get_next_paste_coordinates` guarantees:
the capacity product fits a `u32`, the grid is not full, the `i32`
increment stayed in range, and the returned coordinates are the
offset-times-cell products of `(last_pasted_index + 1) as u32`. -/
theorem get_next_ok_elim {P : Type} (m : Merger P) (px py : Nat)
    (h : m.get_next_paste_coordinates = .ok (px, py)) :
    m.images_per_row * m.total_rows < U32M ∧
    m.num_images < m.images_per_row * m.total_rows ∧
    -I32M ≤ m.last_pasted_index + 1 ∧ m.last_pasted_index + 1 < I32M ∧
    px = u32OfI (m.last_pasted_index + 1) % m.images_per_row *
      m.image_dimensions.1 ∧
    py = u32OfI (m.last_pasted_index + 1) / m.images_per_row *
      m.image_dimensions.2 := by
  unfold Merger.get_next_paste_coordinates at h
  split at h
  · exact absurd h (by simp)
  · next cap hm =>
    obtain ⟨hcap, hcaplt⟩ := checkedMul_ok_elim _ _ _ hm
    split at h
    · exact absurd h (by simp)
    · next available hs =>
      obtain ⟨hav, hle⟩ := checkedSub_ok_elim _ _ _ hs
      split at h
      · exact absurd h (by simp)
      · next havail =>
        split at h
        · exact absurd h (by simp)
        · next s hadd =>
          obtain ⟨hsv, hlo, hhi⟩ := checkedAddI_ok_elim _ _ _ hadd
          simp only [] at h
          split at h
          · exact absurd h (by simp)
          · next x hmx =>
            split at h
            · exact absurd h (by simp)
            · next y hmy =>
              injection h with h1
              injection h1 with hpx hpy
              subst hcap hav hsv
              refine ⟨hcaplt, by omega, hlo, hhi, ?_, ?_⟩
              · rw [← hpx, (checkedMul_ok_elim _ _ _ hmx).1]
              · rw [← hpy, (checkedMul_ok_elim _ _ _ hmy).1]

/-- In a state satisfying the placement invariant with room left,
`get_next_paste_coordinates` succeeds and returns the row-major cell
corner for index `num_images`. -/
theorem get_next_ok_intro {P : Type} (m : Merger P)
    (ha : m.last_pasted_index = (m.num_images : Int) - 1)
    (hcap : m.num_images < m.images_per_row * m.total_rows)
    (hcaplt : m.images_per_row * m.total_rows < U32M)
    (hnum : (m.num_images : Int) < I32M)
    (hwlt : m.image_dimensions.1 * m.images_per_row < U32M)
    (hhlt : m.image_dimensions.2 * m.total_rows < U32M) :
    m.get_next_paste_coordinates =
      .ok (m.num_images % m.images_per_row * m.image_dimensions.1,
           m.num_images / m.images_per_row * m.image_dimensions.2) := by
  have hcols : 0 < m.images_per_row := by
    rcases Nat.eq_zero_or_pos m.images_per_row with h0 | h0
    · rw [h0] at hcap; simp at hcap
    · exact h0
  have heq : m.last_pasted_index + 1 = (m.num_images : Int) := by omega
  have hnum' : m.num_images < U32M := by
    unfold I32M at hnum; unfold U32M; omega
  have hx : m.num_images % m.images_per_row < m.images_per_row :=
    Nat.mod_lt _ hcols
  have hxlt : m.num_images % m.images_per_row * m.image_dimensions.1 <
      U32M :=
    lt_of_le_of_lt
      (le_trans (Nat.mul_le_mul_right _ (le_of_lt hx))
        (le_of_eq (Nat.mul_comm _ _))) hwlt
  have hy : m.num_images / m.images_per_row < m.total_rows := by
    rw [Nat.div_lt_iff_lt_mul hcols]
    calc m.num_images < m.images_per_row * m.total_rows := hcap
    _ = m.total_rows * m.images_per_row := Nat.mul_comm _ _
  have hylt : m.num_images / m.images_per_row * m.image_dimensions.2 <
      U32M :=
    lt_of_le_of_lt
      (le_trans (Nat.mul_le_mul_right _ (le_of_lt hy))
        (le_of_eq (Nat.mul_comm _ _))) hhlt
  unfold Merger.get_next_paste_coordinates
  rw [checkedMul_eq_some _ _ hcaplt]
  simp only []
  rw [checkedSub_eq_some _ _ (le_of_lt hcap)]
  simp only []
  rw [if_neg (by omega :
      ¬(m.images_per_row * m.total_rows - m.num_images = 0)),
    checkedAddI_eq_some _ _ (by omega) (by omega)]
  simp only []
  rw [heq]
  simp only [u32OfI_natCast _ hnum']
  rw [checkedMul_eq_some _ _ hxlt]
  simp only []
  rw [checkedMul_eq_some _ _ hylt]

/-- Everything a successful `push` guarantees: the coordinates were
computed, the paste succeeded and equals the pure write fold, both
counter increments stayed in range, and every other field is kept. -/
theorem push_ok_elim {P : Type} (m : Merger P) (img : Image P)
    (m' : Merger P) (h : m.push img = .ok m') :
    ∃ px py, m.get_next_paste_coordinates = .ok (px, py) ∧
      m'.canvas = purePaste img px py (img.width * img.height) m.canvas ∧
      -I32M ≤ m.last_pasted_index + 1 ∧ m.last_pasted_index + 1 < I32M ∧
      m.num_images + 1 < U32M ∧
      m'.image_dimensions = m.image_dimensions ∧
      m'.num_images = m.num_images + 1 ∧
      m'.images_per_row = m.images_per_row ∧
      m'.last_pasted_index = m.last_pasted_index + 1 ∧
      m'.total_rows = m.total_rows := by
  unfold Merger.push at h
  split at h
  · exact absurd h (by simp)
  · next x y hxy =>
    refine ⟨x, y, hxy, ?_⟩
    split at h
    · exact absurd h (by simp)
    · next c' hc' =>
      split at h
      · exact absurd h (by simp)
      · next lp hlp =>
        split at h
        · exact absurd h (by simp)
        · next n' hn' =>
          injection h with h1
          obtain ⟨hlpv, hlo, hhi⟩ := checkedAddI_ok_elim _ _ _ hlp
          obtain ⟨hn'v, hnlt⟩ := checkedAdd_ok_elim _ _ _ hn'
          have hcv := pasteAux_ok_elim img x y _ _ _ hc'
          subst h1
          exact ⟨hcv ▸ rfl, hlo, hhi, hn'v ▸ hnlt, rfl, hn'v.symm ▸ rfl,
            rfl, hlpv.symm ▸ rfl, rfl⟩

/-- If `q < c` and `x < w` then `q * w + x < c * w`: a pixel of a cell at
row/column offset `q` stays inside the `c` cells of that axis. -/
theorem cell_bound (q c w x : Nat) (hq : q < c) (hx : x < w) :
    q * w + x < c * w :=
  calc q * w + x < q * w + w := by omega
    _ = (q + 1) * w := by ring
    _ ≤ c * w := Nat.mul_le_mul_right _ (by omega)

/-- In a state satisfying the placement invariant with room left, pushing
an image no larger than the configured cell dimensions succeeds (the
source checks no dimensions at all) and produces exactly the pasted
canvas plus the two incremented counters. -/
theorem push_ok_intro {P : Type} (m : Merger P) (img : Image P)
    (ha : m.last_pasted_index = (m.num_images : Int) - 1)
    (hcap : m.num_images < m.images_per_row * m.total_rows)
    (hcaplt : m.images_per_row * m.total_rows < U32M)
    (hnum : (m.num_images : Int) < I32M)
    (hwlt : m.image_dimensions.1 * m.images_per_row < U32M)
    (hhlt : m.image_dimensions.2 * m.total_rows < U32M)
    (hcw : m.canvas.width = m.image_dimensions.1 * m.images_per_row)
    (hch : m.canvas.height = m.image_dimensions.2 * m.total_rows)
    (himgw : img.width ≤ m.image_dimensions.1)
    (himgh : img.height ≤ m.image_dimensions.2) :
    m.push img = .ok { m with
      canvas := purePaste img
        (m.num_images % m.images_per_row * m.image_dimensions.1)
        (m.num_images / m.images_per_row * m.image_dimensions.2)
        (img.width * img.height) m.canvas
      last_pasted_index := m.last_pasted_index + 1
      num_images := m.num_images + 1 } := by
  have hcols : 0 < m.images_per_row := by
    rcases Nat.eq_zero_or_pos m.images_per_row with h0 | h0
    · rw [h0] at hcap; simp at hcap
    · exact h0
  have hrowlt : m.num_images / m.images_per_row < m.total_rows := by
    rw [Nat.div_lt_iff_lt_mul hcols]
    calc m.num_images < m.images_per_row * m.total_rows := hcap
    _ = m.total_rows * m.images_per_row := Nat.mul_comm _ _
  have hbound : ∀ i, i < img.width * img.height →
      destX img (m.num_images % m.images_per_row * m.image_dimensions.1)
        i < m.canvas.width ∧
      destY img (m.num_images / m.images_per_row * m.image_dimensions.2)
        i < m.canvas.height := by
    intro i hi
    have himgw0 : 0 < img.width := by
      rcases Nat.eq_zero_or_pos img.width with h0 | h0
      · rw [h0] at hi; simp at hi
      · exact h0
    have ht : i % U32M < img.width * img.height :=
      lt_of_le_of_lt (Nat.mod_le i U32M) hi
    constructor
    · have hx1 : (i % U32M) % img.width < img.width :=
        Nat.mod_lt _ himgw0
      have hx2 : (i % U32M) % img.width < m.image_dimensions.1 :=
        lt_of_lt_of_le hx1 himgw
      unfold destX
      rw [hcw, Nat.mul_comm m.image_dimensions.1 m.images_per_row]
      exact cell_bound _ _ _ _ (Nat.mod_lt _ hcols) hx2
    · have hy1 : (i % U32M) / img.width < img.height := by
        rw [Nat.div_lt_iff_lt_mul himgw0]
        calc i % U32M < img.width * img.height := ht
        _ = img.height * img.width := Nat.mul_comm _ _
      have hy2 : (i % U32M) / img.width < m.image_dimensions.2 :=
        lt_of_lt_of_le hy1 himgh
      unfold destY
      rw [hch, Nat.mul_comm m.image_dimensions.2 m.total_rows]
      exact cell_bound _ _ _ _ hrowlt hy2
  have hpaste := pasteAux_ok img
    (m.num_images % m.images_per_row * m.image_dimensions.1)
    (m.num_images / m.images_per_row * m.image_dimensions.2)
    (img.width * img.height) m.canvas
    (by rw [hcw]; exact le_of_lt hwlt)
    (by rw [hch]; exact le_of_lt hhlt) hbound
  unfold Merger.push
  rw [get_next_ok_intro m ha hcap hcaplt hnum hwlt hhlt]
  simp only []
  unfold paste
  rw [hpaste]
  simp only []
  rw [checkedAddI_eq_some _ _ (by omega) (by omega)]
  simp only []
  rw [checkedAdd_eq_some _ _ (by unfold U32M; unfold I32M at hnum; omega)]

/-! ## The state invariant and reachability -/

/-- What a successful construction guarantees: both dimension products
fit a `u32` and the state is the freshly initialised record. -/
theorem new_ok_elim {P : Type} [Inhabited P] (d : Nat × Nat)
    (cols rows : Nat) (m : Merger P)
    (h : Merger.new P d cols rows = .ok m) :
    d.1 * cols < U32M ∧ d.2 * rows < U32M ∧
    m = { canvas := Image.blank P (d.1 * cols) (d.2 * rows)
          image_dimensions := d
          num_images := 0
          images_per_row := cols
          last_pasted_index := -1
          total_rows := rows } := by
  unfold Merger.new at h
  split at h
  · exact absurd h (by simp)
  · next w hw =>
    split at h
    · exact absurd h (by simp)
    · next hh hhh =>
      obtain ⟨hwv, hwlt⟩ := checkedMul_ok_elim _ _ _ hw
      obtain ⟨hhv, hhlt⟩ := checkedMul_ok_elim _ _ _ hhh
      injection h with h1
      exact ⟨hwlt, hhlt, by rw [← h1, hwv, hhv]⟩

/-- Every reachable state satisfies the invariant. -/
theorem reachable_inv {P : Type} [Inhabited P] (m : Merger P)
    (h : Reachable m) : Inv m := by
  induction h with
  | base d cols rows m hnew =>
    obtain ⟨hw, hh, hm⟩ := new_ok_elim d cols rows m hnew
    subst hm
    exact ⟨by norm_num, by simp, hw, hh, rfl, rfl⟩
  | step m img m' hr hpush ih =>
    obtain ⟨px, py, hxy, hcv, hlo, hhi, hnlt, hdim, hnum, hcols, hlast,
      hrows⟩ := push_ok_elim m img m' hpush
    obtain ⟨hcaplt, hlt, _, _, _, _⟩ := get_next_ok_elim m px py hxy
    obtain ⟨ia, ib, ic, id', ie, if'⟩ := ih
    refine ⟨?_, ?_, ?_, ?_, ?_, ?_⟩
    · rw [hlast, hnum, ia]; push_cast; ring
    · rw [hnum, hcols, hrows]; omega
    · rw [hdim, hcols]; exact ic
    · rw [hdim, hrows]; exact id'
    · rw [hcv, purePaste_width, hdim, hcols]; exact ie
    · rw [hcv, purePaste_height, hdim, hrows]; exact if'

/-- Every panic of `get_next_paste_coordinates` leaves the merger
unchanged: the method reads but never writes its state. -/
theorem get_next_error_elim {P : Type} (m : Merger P) (msg : String)
    (s : Merger P) (h : m.get_next_paste_coordinates = .error (msg, s)) :
    s = m := by
  unfold Merger.get_next_paste_coordinates at h
  split at h
  · injection h with h1; injection h1 with h2 h3; exact h3.symm
  · next cap hm =>
    split at h
    · injection h with h1; injection h1 with h2 h3; exact h3.symm
    · next available hs =>
      split at h
      · injection h with h1; injection h1 with h2 h3; exact h3.symm
      · next havail =>
        split at h
        · injection h with h1; injection h1 with h2 h3; exact h3.symm
        · next s' hadd =>
          simp only [] at h
          split at h
          · injection h with h1; injection h1 with h2 h3; exact h3.symm
          · next x hmx =>
            split at h
            · injection h with h1; injection h1 with h2 h3; exact h3.symm
            · next y hmy => exact absurd h (by simp)

/-! ## The claims -/

/-- C1 (counterexample): the claim says a `push` on a full grid fails
with a `CapacityExhausted` error surfaced to the immediate caller as a
recoverable failure (`push` returns `Result<(), CapacityError>`) with no
process-wide effect.  On the concrete full merger `fullM`
(`placed_count = 1 = columns_per_row * total_rows`) the source's `push`
instead executes `panic!("No more space on canvas, please resize the
canvas.")` — a process-wide abort, not a recoverable `Result`; in this
embedding a panic is `Except.error`, so `panics` is `true` where the
claim requires a normal (`Except.ok`) return carrying the error value.
The source's `push` returns `()` and has no error type at all. -/
theorem C1_counterexample :
    fullM.num_images = fullM.images_per_row * fullM.total_rows ∧
    panics (fullM.push oneImg) = true :=
  ⟨rfl, rfl⟩

/-- C1 (amended): for every `Merger` whose grid is full (`placed_count =
columns_per_row * total_rows`, the product fitting a `u32`), `push`
panics with the message "No more space on canvas, please resize the
canvas.", mutating nothing before the panic (the panic state is the
original merger).  The failure is a panic, not a recoverable
`Result<(), CapacityError>`. -/
theorem C1_thm {P : Type} (m : Merger P) (img : Image P)
    (hfull : m.num_images = m.images_per_row * m.total_rows)
    (hlt : m.images_per_row * m.total_rows < U32M) :
    m.push img = .error (capacityMsg, m) := by
  unfold Merger.push Merger.get_next_paste_coordinates
  rw [checkedMul_eq_some _ _ hlt]
  simp only []
  rw [hfull, checkedSub_eq_some _ _ (le_refl _)]
  simp only []
  rw [if_pos (Nat.sub_self _)]

/-- C1 (witness): `C1_thm` applied to the concrete full merger. -/
theorem C1_witness : fullM.push oneImg = .error (capacityMsg, fullM) :=
  C1_thm fullM oneImg rfl (by decide)

/-- C2 (counterexample): the claim says that for every `i` in
`[0, columns_per_row * total_rows)`, `next_placement_coordinates`
computed when `placed_count = i` returns
`((i mod columns_per_row) * cell_width, (i div columns_per_row) *
cell_height)`.  On the freshly constructed merger `bigGridM`
(65536 columns, 65536 rows, 1-by-1 cells — a perfectly representable
65536-by-65536 canvas), `placed_count = 0` lies in `[0, 2^32)`, yet
`get_next_paste_coordinates` does not return `(0, 0)`: the very first
step, the `u32` product `images_per_row * total_rows = 2^32`, overflows
and panics. -/
theorem C2_counterexample :
    Merger.new Nat (1, 1) 65536 65536 = .ok bigGridM ∧
    bigGridM.num_images = 0 ∧
    isOkE bigGridM.get_next_paste_coordinates = false :=
  ⟨rfl, rfl, rfl⟩

/-- C2 (amended): in every reachable state with `placed_count = i`,
whenever `get_next_paste_coordinates` returns coordinates at all
(rather than panicking), they are exactly
`((i mod columns_per_row) * cell_width, (i div columns_per_row) *
cell_height)` — a pure function of the call index and the grid
geometry. -/
theorem C2_thm {P : Type} [Inhabited P] (m : Merger P) (px py : Nat)
    (hr : Reachable m)
    (h : m.get_next_paste_coordinates = .ok (px, py)) :
    px = m.num_images % m.images_per_row * m.image_dimensions.1 ∧
    py = m.num_images / m.images_per_row * m.image_dimensions.2 := by
  obtain ⟨_, _, _, hhi, hpx, hpy⟩ := get_next_ok_elim m px py h
  have ha := (reachable_inv m hr).1
  have hnum : m.last_pasted_index + 1 = (m.num_images : Int) := by omega
  have hnum' : m.num_images < U32M := by
    rw [hnum] at hhi
    unfold I32M at hhi; unfold U32M
    omega
  rw [hnum, u32OfI_natCast _ hnum'] at hpx hpy
  exact ⟨hpx, hpy⟩

/-- C2 (witness): `C2_thm` applied to the fresh 3-by-2 merger, whose
`get_next_paste_coordinates` returns `(0, 0)` for index 0. -/
theorem C2_witness :
    0 = freshM3x2.num_images % freshM3x2.images_per_row *
      freshM3x2.image_dimensions.1 ∧
    0 = freshM3x2.num_images / freshM3x2.images_per_row *
      freshM3x2.image_dimensions.2 :=
  C2_thm freshM3x2 0 0 (Reachable.base (1, 1) 3 2 freshM3x2 rfl) rfl

/-- C4: in every reachable `Merger` state, `last_pasted_index` equals
`num_images - 1` whenever at least one image has been placed, and equals
the sentinel `-1` when `num_images = 0`; `new` establishes this and
every `push` preserves it. -/
theorem C4_thm {P : Type} [Inhabited P] (m : Merger P)
    (hr : Reachable m) :
    (m.num_images = 0 → m.last_pasted_index = -1) ∧
    (0 < m.num_images →
      m.last_pasted_index = (m.num_images : Int) - 1) := by
  have ha := (reachable_inv m hr).1
  exact ⟨fun h0 => by rw [ha, h0]; norm_num, fun _ => ha⟩

/-- C4 (witness): `C4_thm` applied to the fresh 3-by-2 merger, where no
image has been placed and the sentinel is `-1`. -/
theorem C4_witness : freshM3x2.last_pasted_index = -1 :=
  (C4_thm freshM3x2 (Reachable.base (1, 1) 3 2 freshM3x2 rfl)).1 rfl

/-- C5: in every reachable state, `num_images` is at most
`images_per_row * total_rows`; every successful `push` increases it by
exactly one (and nothing ever decreases it — the only state-changing
operation is `push`); and once `num_images = images_per_row *
total_rows` no further `push` succeeds. -/
theorem C5_thm {P : Type} [Inhabited P] (m : Merger P)
    (hr : Reachable m) :
    m.num_images ≤ m.images_per_row * m.total_rows ∧
    (∀ (img : Image P) (m' : Merger P), m.push img = .ok m' →
      m'.num_images = m.num_images + 1) ∧
    (m.num_images = m.images_per_row * m.total_rows →
      ∀ (img : Image P) (m' : Merger P), m.push img ≠ .ok m') := by
  refine ⟨(reachable_inv m hr).2.1, ?_, ?_⟩
  · intro img m' h
    obtain ⟨px, py, _, _, _, _, _, _, hnum, _, _, _⟩ :=
      push_ok_elim m img m' h
    exact hnum
  · intro hfull img m' h
    obtain ⟨px, py, hxy, _⟩ := push_ok_elim m img m' h
    obtain ⟨_, hlt, _⟩ := get_next_ok_elim m px py hxy
    omega

/-- C5 (witness): `C5_thm` applied to the fresh 3-by-2 merger. -/
theorem C5_witness :
    freshM3x2.num_images ≤ freshM3x2.images_per_row *
      freshM3x2.total_rows :=
  (C5_thm freshM3x2 (Reachable.base (1, 1) 3 2 freshM3x2 rfl)).1

/-- C10: in every reachable state `num_images ≤ images_per_row *
total_rows`, so the `u32` subtraction `(images_per_row * total_rows) -
num_images` at the start of `get_next_paste_coordinates` never
underflows whenever the capacity product itself was computed; and
`last_pasted_index ≥ -1`, so `(last_pasted_index + 1) as u32` always
casts a non-negative value. -/
theorem C10_thm {P : Type} [Inhabited P] (m : Merger P)
    (hr : Reachable m) :
    m.num_images ≤ m.images_per_row * m.total_rows ∧
    -1 ≤ m.last_pasted_index ∧
    (∀ cap, checkedMul m.images_per_row m.total_rows = some cap →
      checkedSub cap m.num_images ≠ none) := by
  have hInv := reachable_inv m hr
  refine ⟨hInv.2.1, by have := hInv.1; omega, ?_⟩
  intro cap hcap
  obtain ⟨hv, _⟩ := checkedMul_ok_elim _ _ _ hcap
  rw [checkedSub_eq_some _ _ (by rw [hv]; exact hInv.2.1)]
  simp

/-- C10 (witness): `C10_thm` applied to the fresh 3-by-2 merger. -/
theorem C10_witness : -1 ≤ freshM3x2.last_pasted_index :=
  (C10_thm freshM3x2 (Reachable.base (1, 1) 3 2 freshM3x2 rfl)).2.1

/-- C6 (counterexample): the claim says pushing an image whose
dimensions differ from `cell_dimensions` fails with a DimensionMismatch
error rather than writing any pixels.  Pushing the undersized 1-by-1
image `smallImg` into `squareCellM` (one 2-by-2 cell) instead succeeds:
the pixel value 7 is written at the cell corner and `num_images` is
committed to 1 — the source validates no dimensions (the spec itself
flags the check as "absent in source"). -/
theorem C6_counterexample :
    Merger.new Nat (2, 2) 1 1 = .ok squareCellM ∧
    (smallImg.width, smallImg.height) ≠ squareCellM.image_dimensions ∧
    (squareCellM.push smallImg).map
      (fun m' => (m'.num_images, m'.canvas.pix 0 0)) = .ok (1, 7) :=
  ⟨rfl, by decide, rfl⟩

/-- C6 (amended): the source performs no dimension validation: pushing
an image whose dimensions differ from `cell_dimensions` does not fail
with a DimensionMismatch error — no such error exists in the code.  An
image no larger than the cell is pasted exactly as a conforming one
would be (an undersized image under-fills its cell), pixels written and
counters committed; an oversized image's pixels are likewise written,
spilling outside the intended cell (see C9's counterexample), checked
only against the per-pixel canvas bounds. -/
theorem C6_thm {P : Type} (m : Merger P) (img : Image P) (hInv : Inv m)
    (hroom : m.num_images < m.images_per_row * m.total_rows)
    (hcaplt : m.images_per_row * m.total_rows < U32M)
    (hnum : (m.num_images : Int) < I32M)
    (himgw : img.width ≤ m.image_dimensions.1)
    (himgh : img.height ≤ m.image_dimensions.2)
    (_hmm : (img.width, img.height) ≠ m.image_dimensions) :
    m.push img = .ok { m with
      canvas := purePaste img
        (m.num_images % m.images_per_row * m.image_dimensions.1)
        (m.num_images / m.images_per_row * m.image_dimensions.2)
        (img.width * img.height) m.canvas
      last_pasted_index := m.last_pasted_index + 1
      num_images := m.num_images + 1 } := by
  obtain ⟨ha, _, hwlt, hhlt, hcw, hch⟩ := hInv
  exact push_ok_intro m img ha hroom hcaplt hnum hwlt hhlt hcw hch
    himgw himgh

/-- C6 (witness): `C6_thm` applied to the undersized push of the
counterexample's scenario. -/
theorem C6_witness :
    squareCellM.push smallImg = .ok { squareCellM with
      canvas := purePaste smallImg
        (squareCellM.num_images % squareCellM.images_per_row *
          squareCellM.image_dimensions.1)
        (squareCellM.num_images / squareCellM.images_per_row *
          squareCellM.image_dimensions.2)
        (smallImg.width * smallImg.height) squareCellM.canvas
      last_pasted_index := squareCellM.last_pasted_index + 1
      num_images := squareCellM.num_images + 1 } :=
  C6_thm squareCellM smallImg
    ⟨by decide, by decide, by decide, by decide, by decide, by decide⟩
    (by decide) (by decide) (by decide) (by decide) (by decide)
    (by decide)

/-- C7 (counterexample): the claim quantifies over all positive geometry
parameters, but at the positive parameters cell = (65536, 1),
columns_per_row = 65536, total_rows = 1 the source allocates no canvas
at all: the `u32` product `cell_width * columns_per_row = 2^32`
overflows and construction panics. -/
theorem C7_counterexample :
    Merger.new Nat (65536, 1) 65536 1 = .error mulMsg := rfl

/-- C7 (amended): for all positive geometry parameters whose two canvas
dimension products fit a `u32`, construction succeeds, allocates a
canvas of exactly `cell_width * columns_per_row` by `cell_height *
total_rows` pixels with `placed_count = 0` and `last_placed_index` at
the sentinel `-1`, and every canvas pixel equals the pixel format's
default value. -/
theorem C7_thm (P : Type) [Inhabited P] (d : Nat × Nat)
    (cols rows : Nat) (_hwpos : 0 < d.1) (_hhpos : 0 < d.2)
    (_hcpos : 0 < cols) (_hrpos : 0 < rows) (hwlt : d.1 * cols < U32M)
    (hhlt : d.2 * rows < U32M) :
    ∃ m : Merger P, Merger.new P d cols rows = .ok m ∧
      m.canvas.width = d.1 * cols ∧ m.canvas.height = d.2 * rows ∧
      m.num_images = 0 ∧ m.last_pasted_index = -1 ∧
      ∀ x y, m.canvas.pix x y = default := by
  refine ⟨{ canvas := Image.blank P (d.1 * cols) (d.2 * rows)
            image_dimensions := d
            num_images := 0
            images_per_row := cols
            last_pasted_index := -1
            total_rows := rows },
    ?_, rfl, rfl, rfl, rfl, fun x y => rfl⟩
  unfold Merger.new
  rw [checkedMul_eq_some _ _ hwlt]
  simp only []
  rw [checkedMul_eq_some _ _ hhlt]

/-- C7 (witness): `C7_thm` applied to a concrete 4-by-5 grid of 2-by-3
cells. -/
theorem C7_witness : isOkE (Merger.new Nat (2, 3) 4 5) = true := by
  obtain ⟨m, hm, _⟩ := C7_thm Nat (2, 3) 4 5 (by decide) (by decide)
    (by decide) (by decide) (by decide) (by decide)
  rw [hm]
  rfl

/-- C8 (counterexample): the claim says construction fails with an
InvalidConstruction error when the requested canvas dimensions are
zero.  Constructing with cell dimensions (0, 0) instead succeeds,
returning a merger with an empty 0-by-0 canvas and `num_images = 0` —
the source's `new` has no error return at all. -/
theorem C8_counterexample :
    (Merger.new Nat (0, 0) 1 1).map
      (fun m => (m.canvas.width, m.canvas.height, m.num_images)) =
    .ok (0, 0, 0) := rfl

/-- C8 (amended): construction never returns an InvalidConstruction
error — no such error exists in the source, whose `new` returns `Self`.
Zero dimensions are accepted and yield an empty canvas.  The only
failure is an arithmetic-overflow panic: construction returns normally
exactly when both canvas dimension products, `cell_width *
columns_per_row` and `cell_height * total_rows`, fit a `u32`. -/
theorem C8_thm (P : Type) [Inhabited P] (d : Nat × Nat)
    (cols rows : Nat) :
    isOkE (Merger.new P d cols rows) = true ↔
      d.1 * cols < U32M ∧ d.2 * rows < U32M := by
  constructor
  · intro h
    unfold Merger.new at h
    cases hw : checkedMul d.1 cols with
    | none => rw [hw] at h; exact absurd h (by simp [isOkE])
    | some w =>
      rw [hw] at h
      cases hh : checkedMul d.2 rows with
      | none => rw [hh] at h; exact absurd h (by simp [isOkE])
      | some hgt =>
        exact ⟨(checkedMul_ok_elim _ _ _ hw).2,
          (checkedMul_ok_elim _ _ _ hh).2⟩
  · rintro ⟨h1, h2⟩
    unfold Merger.new
    rw [checkedMul_eq_some _ _ h1]
    simp only []
    rw [checkedMul_eq_some _ _ h2]
    rfl

/-- C8 (witness): `C8_thm` applied to a concrete 1-by-1 construction. -/
theorem C8_witness : isOkE (Merger.new Nat (1, 1) 1 1) = true :=
  (C8_thm Nat (1, 1) 1 1).mpr (by decide)

/-- C3 (counterexample): the claim as stated covers every image whose
dimensions equal `cell_dimensions`, with no bound on the pixel count.
`rowIdxImg` (65536 by 65537, pixel value = row number) exactly matches
`tallCellM`'s cell dimensions and its push succeeds with destination
corner (0, 0); but the claim's conclusion fails at (x, y) = (0, 0): the
source pixel there is 0, while the canvas pixel ends up 65536.  The
image has `2^32 + 65536` pixels and `index as u32` truncates the
`usize` index of worker `2^32` — carrying pixel (0, 65536), value
65536 — to 0, so it writes over the cell corner after (in the reference
order) the worker of (0, 0) wrote the 0 there. -/
theorem C3_counterexample :
    Merger.new Nat (65536, 65537) 1 1 = .ok tallCellM ∧
    rowIdxImg.width = tallCellM.image_dimensions.1 ∧
    rowIdxImg.height = tallCellM.image_dimensions.2 ∧
    tallCellM.get_next_paste_coordinates = .ok (0, 0) ∧
    rowIdxImg.pix 0 0 = 0 ∧
    (tallCellM.push rowIdxImg).map (fun m' => m'.canvas.pix 0 0) =
      .ok 65536 := by
  refine ⟨rfl, rfl, rfl, rfl, rfl, ?_⟩
  have hpush := push_ok_intro tallCellM rowIdxImg (by decide) (by decide)
    (by decide) (by decide) (by decide) (by decide) (by decide)
    (by decide) (by decide) (by decide)
  rw [hpush]
  simp only [Except.map]
  rw [Except.ok.injEq]
  show (purePaste rowIdxImg
    (tallCellM.num_images % tallCellM.images_per_row *
      tallCellM.image_dimensions.1)
    (tallCellM.num_images / tallCellM.images_per_row *
      tallCellM.image_dimensions.2)
    (rowIdxImg.width * rowIdxImg.height) tallCellM.canvas).pix 0 0 =
    65536
  have harg1 : tallCellM.num_images % tallCellM.images_per_row *
      tallCellM.image_dimensions.1 = 0 := by decide
  have harg2 : tallCellM.num_images / tallCellM.images_per_row *
      tallCellM.image_dimensions.2 = 0 := by decide
  have hn : rowIdxImg.width * rowIdxImg.height = 4295032832 := by decide
  rw [harg1, harg2, hn]
  have hlast : ∀ k, 4294967296 < k → k < 4295032832 →
      ¬(destX rowIdxImg 0 k = 0 ∧ destY rowIdxImg 0 k = 0) := by
    intro k hk1 hk2 hcon
    obtain ⟨hdx, _⟩ := hcon
    unfold destX at hdx
    have hwr : rowIdxImg.width = 65536 := rfl
    rw [hwr] at hdx
    have hkm : k % U32M = k - 4294967296 := by unfold U32M; omega
    rw [hkm] at hdx
    rw [Nat.mod_eq_of_lt (by omega : k - 4294967296 < 65536)] at hdx
    omega
  have hhit := purePaste_pix_hit rowIdxImg 0 0 4295032832
    tallCellM.canvas 0 0 4294967296 (by norm_num) (by decide)
    (by decide) hlast
  rw [hhit]
  decide

/-- C3 (amended): for every image whose dimensions equal
`cell_dimensions` and number at most `2^32` pixels, and every successful
push of it with destination corner `(px, py)`, the canvas pixel at
`(px + x, py + y)` equals the source pixel at `(x, y)` for every
in-range `(x, y)` — an exact, untransformed copy.  The pixel-count bound
is forced by the counterexample: the source truncates the `usize` pixel
index to `u32` before deriving the destination coordinates. -/
theorem C3_thm {P : Type} (m : Merger P) (img : Image P) (m' : Merger P)
    (px py x y : Nat)
    (_hw : img.width = m.image_dimensions.1)
    (_hh : img.height = m.image_dimensions.2)
    (hsize : img.width * img.height ≤ U32M)
    (hxy : m.get_next_paste_coordinates = .ok (px, py))
    (hpush : m.push img = .ok m')
    (hx : x < img.width) (hy : y < img.height) :
    m'.canvas.pix (px + x) (py + y) = img.pix x y := by
  obtain ⟨px', py', hxy', hcv, _⟩ := push_ok_elim m img m' hpush
  rw [hxy'] at hxy
  injection hxy with hpq
  injection hpq with hp hq
  rw [hp, hq] at hcv
  rw [hcv]
  have hw0 : 0 < img.width := lt_of_le_of_lt (Nat.zero_le x) hx
  have hmi : y * img.width + x < img.width * img.height := by
    rw [Nat.mul_comm img.width img.height]
    exact cell_bound y img.height img.width x hy hx
  have hmiU : y * img.width + x < U32M := lt_of_lt_of_le hmi hsize
  have hmod : (y * img.width + x) % U32M = y * img.width + x :=
    Nat.mod_eq_of_lt hmiU
  have hmx : (y * img.width + x) % img.width = x := by
    rw [Nat.mul_comm y img.width, Nat.mul_add_mod]
    exact Nat.mod_eq_of_lt hx
  have hmy : (y * img.width + x) / img.width = y := by
    rw [Nat.mul_comm y img.width, Nat.mul_add_div hw0,
      Nat.div_eq_of_lt hx]
    omega
  have hvx : destX img px (y * img.width + x) = px + x := by
    unfold destX
    rw [hmod, hmx]
  have hvy : destY img py (y * img.width + x) = py + y := by
    unfold destY
    rw [hmod, hmy]
  have hlast : ∀ k, y * img.width + x < k → k < img.width * img.height →
      ¬(destX img px k = px + x ∧ destY img py k = py + y) := by
    intro k hk1 hk2 hcon
    obtain ⟨hdx, hdy⟩ := hcon
    unfold destX at hdx
    unfold destY at hdy
    rw [Nat.mod_eq_of_lt (lt_of_lt_of_le hk2 hsize)] at hdx hdy
    have h1 : k % img.width = x := Nat.add_left_cancel hdx
    have h2 : k / img.width = y := Nat.add_left_cancel hdy
    have h3 := Nat.div_add_mod k img.width
    rw [h1, h2, Nat.mul_comm img.width y] at h3
    rw [h3] at hk1
    exact lt_irrefl k hk1
  rw [purePaste_pix_hit img px py (img.width * img.height) m.canvas
    (px + x) (py + y) (y * img.width + x) hmi hvx hvy hlast]
  unfold srcPix
  rw [hmx, hmy]

/-- C3 (witness): `C3_thm` applied to a conforming 2-by-2 push. -/
theorem C3_witness :
    squareCellMafter.canvas.pix (0 + 1) (0 + 1) = imgA.pix 1 1 :=
  C3_thm squareCellM imgA squareCellMafter 0 0 1 1 rfl rfl (by decide)
    rfl rfl (by decide) (by decide)

/-- C9 (counterexample): the claim says every `push` writes only into
the canvas cell it targets.  Pushing the oversized 2-by-1 image
`wideImg` into `wideM` (1-by-1 cells, two columns) targets the cell
`[0,1) x [0,1)` at corner (0, 0), yet succeeds and writes pixel value 5
at (1, 0) — inside the neighbouring cell — where the canvas previously
held the default 0. -/
theorem C9_counterexample :
    Merger.new Nat (1, 1) 2 1 = .ok wideM ∧
    wideM.get_next_paste_coordinates = .ok (0, 0) ∧
    wideM.canvas.pix 1 0 = 0 ∧
    (wideM.push wideImg).map (fun m' => m'.canvas.pix 1 0) = .ok 5 :=
  ⟨rfl, rfl, rfl, rfl⟩

/-- C9 (amended): every `push` of an image whose dimensions equal
`cell_dimensions` has no side effects beyond writing the image's pixels
into the canvas cell it targets and advancing the two counters: on
success, the grid-geometry fields are unchanged, `num_images` and
`last_pasted_index` advance by exactly one, and every canvas pixel
outside the target cell rectangle is unchanged; and a push that fails
with the capacity panic leaves the merger exactly as it was (the panic
happens before any pixel write or counter update).  The restriction to
conforming images is forced by the counterexample: an oversized image's
pixels land outside the target cell. -/
theorem C9_thm {P : Type} (m : Merger P) (img : Image P)
    (hw : img.width = m.image_dimensions.1)
    (hh : img.height = m.image_dimensions.2) :
    (∀ m', m.push img = .ok m' →
      m'.image_dimensions = m.image_dimensions ∧
      m'.images_per_row = m.images_per_row ∧
      m'.total_rows = m.total_rows ∧
      m'.num_images = m.num_images + 1 ∧
      m'.last_pasted_index = m.last_pasted_index + 1 ∧
      ∀ px py, m.get_next_paste_coordinates = .ok (px, py) →
        ∀ a b, (a < px ∨ px + m.image_dimensions.1 ≤ a ∨
                b < py ∨ py + m.image_dimensions.2 ≤ b) →
          m'.canvas.pix a b = m.canvas.pix a b) ∧
    (∀ s, m.push img = .error (capacityMsg, s) → s = m) := by
  constructor
  · intro m' hpush
    obtain ⟨px', py', hxy', hcv, _, _, _, hdim, hnum, hcols, hlast,
      hrows⟩ := push_ok_elim m img m' hpush
    refine ⟨hdim, hcols, hrows, hnum, hlast, ?_⟩
    intro px py hxy a b hout
    rw [hxy'] at hxy
    injection hxy with hpq
    injection hpq with hp hq
    rw [hp, hq] at hcv
    rw [hcv]
    apply purePaste_pix_miss
    intro i hi hcon
    obtain ⟨hdx, hdy⟩ := hcon
    have hw0 : 0 < img.width := by
      rcases Nat.eq_zero_or_pos img.width with h0 | h0
      · rw [h0] at hi; simp at hi
      · exact h0
    have hxw : (i % U32M) % img.width < m.image_dimensions.1 := by
      rw [← hw]
      exact Nat.mod_lt _ hw0
    have hyh : (i % U32M) / img.width < m.image_dimensions.2 := by
      rw [← hh, Nat.div_lt_iff_lt_mul hw0, Nat.mul_comm]
      exact lt_of_le_of_lt (Nat.mod_le i U32M) hi
    unfold destX at hdx
    unfold destY at hdy
    rcases hout with hcase | hcase | hcase | hcase
    · exact Nat.lt_irrefl px
        (Nat.lt_of_le_of_lt (hdx ▸ Nat.le_add_right px _) hcase)
    · exact Nat.lt_irrefl a
        (Nat.lt_of_lt_of_le (hdx ▸ Nat.add_lt_add_left hxw px) hcase)
    · exact Nat.lt_irrefl py
        (Nat.lt_of_le_of_lt (hdy ▸ Nat.le_add_right py _) hcase)
    · exact Nat.lt_irrefl b
        (Nat.lt_of_lt_of_le (hdy ▸ Nat.add_lt_add_left hyh py) hcase)
  · intro s hs
    unfold Merger.push at hs
    split at hs
    · next e hge =>
      injection hs with h1
      exact get_next_error_elim m capacityMsg s (h1 ▸ hge)
    · next x y hxy =>
      split at hs
      · next msg' c' hp =>
        injection hs with h1
        injection h1 with h2 h3
        unfold paste at hp
        rcases pasteAux_error_msg img x y _ m.canvas c' msg' hp with
          h | h <;> rw [h] at h2 <;> exact absurd h2 (by decide)
      · next c' hp =>
        split at hs
        · next hlp =>
          injection hs with h1
          injection h1 with h2 h3
          exact absurd h2 (by decide)
        · next lp hlp =>
          split at hs
          · next hn' =>
            injection hs with h1
            injection h1 with h2 h3
            exact absurd h2 (by decide)
          · next n' hn' => exact absurd hs (by simp)

/-- C9 (witness): `C9_thm` applied to a conforming 1-by-1 push into the
two-cell merger `wideM`: the pixel in the neighbouring cell is
preserved and the counter advances. -/
theorem C9_witness :
    wideMafter.canvas.pix 1 0 = wideM.canvas.pix 1 0 ∧
    wideMafter.num_images = wideM.num_images + 1 := by
  have h := (C9_thm wideM oneImg rfl rfl).1 wideMafter rfl
  exact ⟨h.2.2.2.2.2 0 0 rfl 1 0 (Or.inr (Or.inl (by decide))),
    h.2.2.2.1⟩

end ImageMerger
